import Mathlib

/-
Shallow embedding of the browser process lifecycle and cleanup subsystem:
src/chrome_with_cleanup.py      (class ChromeWithFullCleanup),
src/chrome_with_cleanup_fixed.py (class ChromeWithProperCleanup),
src/chrome_with_aggressive_cleanup.py (class ChromeUltraAggressiveCleanup),
and the workflow entry point and calendar scan in src/job.py.

Conventions of the embedding:
* The OS process table is a `List ProcessRecord`, the data psutil.process_iter
  yields (pid, name, exe, cmdline, ppid).
* Time is measured in deciseconds (1 unit = 100 ms), so the 0.2 s polling
  interval of `_wait_for_process_cleanup` is the step `2`.
* Python exceptions are an explicit `Except PyExc` result.
* Python `set` values are `Finset Nat`; iteration order over a Python set is
  unspecified, so operations whose result could depend on that order are
  modelled as sets of issued actions.
-/

/-- A process record as fetched by `psutil.process_iter(["pid", "name", "exe",
"cmdline", "ppid"])`: pid, process name, executable path, command-line argument
vector and parent pid. -/
structure ProcessRecord where
  pid : Nat
  name : String
  exe : String
  cmdline : List String
  ppid : Nat
deriving DecidableEq

/-- Python's `s.lower()` (ASCII case folding; the marker strings involved are
ASCII). -/
def pyLower (s : String) : String := String.mk (s.data.map Char.toLower)

/-- Python's substring test `needle in hay`. -/
def pyIn (needle hay : String) : Bool := decide (needle.toList <:+: hay.toList)

/-- Python's `" ".join(record.cmdline)` used before substring checks. -/
def cmdlineJoined (r : ProcessRecord) : String := String.intercalate " " r.cmdline

/-- The Python exceptions arising on the embedded code paths. -/
inductive PyExc
  | processLookupError
  | noSuchProcess
  | accessDenied
  | typeError (kwarg : String)
  | valueError (s : String)
deriving DecidableEq

/- ------------------------------------------------------------------
src/chrome_with_cleanup.py : class ChromeWithFullCleanup
------------------------------------------------------------------ -/

/-- chrome_with_cleanup.py lines 72-73: the classification used by
`_get_chrome_pids` — `"chrome" in name.lower() or "chromium" in name.lower()`. -/
def ChromeWithFullCleanup.getChromePidsMatches (name : String) : Bool :=
  pyIn "chrome" (pyLower name) || pyIn "chromium" (pyLower name)

/-- chrome_with_cleanup.py lines 67-77, `_get_chrome_pids`: the pids of all
records whose name matches. -/
def ChromeWithFullCleanup.getChromePids (table : List ProcessRecord) : Finset Nat :=
  ((table.filter fun r => ChromeWithFullCleanup.getChromePidsMatches r.name).map
    fun r => r.pid).toFinset

/-- chrome_with_cleanup.py lines 94-97: the classification used by
`_force_kill_all_chrome` — `any(keyword in name.lower() for keyword in
["chrome", "chromium", "chromedriver"])`. -/
def ChromeWithFullCleanup.forceKillMatches (name : String) : Bool :=
  pyIn "chrome" (pyLower name) || pyIn "chromium" (pyLower name) ||
    pyIn "chromedriver" (pyLower name)

/-- chrome_with_cleanup.py line 40 (`__enter__`):
`self.spawned_pids = current_pids - self.chrome_pids`, a Python set
difference (the aggressive variant's line 81 is identical in form). -/
def ChromeWithFullCleanup.spawnedDelta (before after : Finset Nat) : Finset Nat :=
  after \ before

/-- chrome_with_cleanup.py lines 79-87, `_kill_chrome_processes`: one
`os.kill(pid, SIGTERM)` is issued per tracked pid; `ProcessLookupError` and
every other exception of the call are swallowed, so the function's observable
behaviour is just the list of issued signals. -/
def ChromeWithFullCleanup.killChromeProcessesKills (spawnedPids : List Nat) : List Nat :=
  spawnedPids

/-- chrome_with_cleanup.py lines 106-129, `_wait_for_process_cleanup` (the
fixed variant's lines 203-226 are textually identical): poll every 0.2 s
(2 deciseconds) while elapsed time < timeout; return true as soon as no
tracked pid is alive. `fuel` is an upper bound on the number of loop
iterations (the loop provably performs at most `timeout` of them, see the
lemma `waitLoop_iff` below); `live t` is the set of live pids at elapsed
time `t`. -/
def ChromeWithFullCleanup.waitLoop (spawned : Finset Nat) (live : Nat → Finset Nat)
    (timeout : Nat) : Nat → Nat → Bool
  | 0, _ => false
  | fuel + 1, t =>
    if t < timeout then
      if spawned ∩ live t = ∅ then true
      else ChromeWithFullCleanup.waitLoop spawned live timeout fuel (t + 2)
    else false

/-- chrome_with_cleanup.py lines 106-129: the graceful-shutdown wait, started
at elapsed time 0. -/
def ChromeWithFullCleanup.waitForProcessCleanup (spawned : Finset Nat)
    (live : Nat → Finset Nat) (timeout : Nat) : Bool :=
  ChromeWithFullCleanup.waitLoop spawned live timeout timeout 0

/-- A simulated tracked process: pid `p` is alive strictly before elapsed
time `texit` (deciseconds) and gone from then on. -/
def simulatedExitAt (texit p : Nat) : Nat → Finset Nat :=
  fun t => if t < texit then {p} else ∅

/-- chrome_with_cleanup.py lines 89-104, `_force_kill_all_chrome`, iterating
over the snapshot `process_iter` yielded. For a matching record that is still
alive at kill time, `proc.terminate()`/`proc.wait` succeed (a `wait` timeout
is caught by the bare `except` and the subsequent `os.kill` on the live pid
succeeds). For a matching record that vanished after enumeration,
`proc.terminate()` raises `psutil.NoSuchProcess`, the bare `except` catches it
and runs `os.kill(pid, SIGKILL)` (line 102), which raises
`ProcessLookupError`; the surrounding `except (psutil.NoSuchProcess,
psutil.AccessDenied)` does not catch that builtin exception, so it propagates
and aborts the loop. -/
def ChromeWithFullCleanup.forceKillAllChrome (snapshot : List ProcessRecord)
    (aliveAtKill : Nat → Bool) : Except PyExc Unit :=
  match snapshot with
  | [] => Except.ok ()
  | r :: rest =>
    if ChromeWithFullCleanup.forceKillMatches r.name then
      if aliveAtKill r.pid then
        ChromeWithFullCleanup.forceKillAllChrome rest aliveAtKill
      else Except.error PyExc.processLookupError
    else ChromeWithFullCleanup.forceKillAllChrome rest aliveAtKill

/-- chrome_with_cleanup.py lines 45-65, `__exit__` after `driver.quit()` (whose
errors are swallowed at lines 50-53): wait for cleanup; if it timed out, run
`_kill_chrome_processes` (which swallows every error) and then
`_force_kill_all_chrome`, whose exception — if any — propagates to the
caller of `__exit__`. -/
def ChromeWithFullCleanup.exitCleanup (spawned : Finset Nat)
    (live : Nat → Finset Nat) (timeout : Nat) (snapshot : List ProcessRecord)
    (aliveAtKill : Nat → Bool) : Except PyExc Bool :=
  if ChromeWithFullCleanup.waitForProcessCleanup spawned live timeout then
    Except.ok true
  else
    match ChromeWithFullCleanup.forceKillAllChrome snapshot aliveAtKill with
    | Except.ok _ => Except.ok false
    | Except.error e => Except.error e

/- ------------------------------------------------------------------
src/chrome_with_cleanup_fixed.py : class ChromeWithProperCleanup
------------------------------------------------------------------ -/

/-- chrome_with_cleanup_fixed.py lines 119-137: the classification of
`_get_all_chrome_related_pids` — `is_chrome` (name contains "chrome" or
"chromium" after lowering) or `is_chromedriver` ("chromedriver" in the
lowered name, "chromedriver" in the lowered joined cmdline, or the raw
joined cmdline contains "--port="). -/
def ChromeWithProperCleanup.matches (r : ProcessRecord) : Bool :=
  (pyIn "chrome" (pyLower r.name) || pyIn "chromium" (pyLower r.name)) ||
    (pyIn "chromedriver" (pyLower r.name) ||
      pyIn "chromedriver" (pyLower (cmdlineJoined r)) ||
      pyIn "--port=" (cmdlineJoined r))

/-- chrome_with_cleanup_fixed.py lines 115-143, `_get_all_chrome_related_pids`. -/
def ChromeWithProperCleanup.getAllChromeRelatedPids (table : List ProcessRecord) :
    Finset Nat :=
  ((table.filter fun r => ChromeWithProperCleanup.matches r).map
    fun r => r.pid).toFinset

/-- The pids a table enumeration yields. -/
def ChromeWithProperCleanup.pids (table : List ProcessRecord) : List Nat :=
  table.map fun r => r.pid

/-- The direct children of pid `p` in the table — the pids whose record has
parent id `p` (psutil resolves children through the ppid map). -/
def ChromeWithProperCleanup.childPids (table : List ProcessRecord) (p : Nat) :
    List Nat :=
  (table.filter fun r => r.ppid == p).map fun r => r.pid

/-- The transitive descendant traversal performed by
`psutil.Process(pid).children(recursive=True)`: each child is listed followed
by its own descendants. psutil guards its breadth-first walk against revisits;
here `fuel` bounds the traversal depth instead, and `fuel = table.length`
suffices for every acyclic table (no chain of parent links can be longer than
the table itself — proved below). -/
def ChromeWithProperCleanup.descend (table : List ProcessRecord) :
    Nat → Nat → List Nat
  | 0, _ => []
  | fuel + 1, p =>
    (ChromeWithProperCleanup.childPids table p).flatMap
      fun c => c :: ChromeWithProperCleanup.descend table fuel c

/-- chrome_with_cleanup_fixed.py lines 161-179, `_get_process_tree`: if the
root pid vanished, `psutil.Process(pid)` raises `NoSuchProcess`, the handler
catches it and the empty list is returned; otherwise the root pid followed by
all pids of `children(recursive=True)`. -/
def ChromeWithProperCleanup.getProcessTree (table : List ProcessRecord)
    (pid : Nat) : List Nat :=
  if pid ∈ ChromeWithProperCleanup.pids table then
    pid :: ChromeWithProperCleanup.descend table table.length pid
  else []

/-- chrome_with_cleanup_fixed.py lines 228-245, `_force_kill_process_tree`:
`pids_to_kill` is the union of the tracked spawned set and a fresh
`_get_all_chrome_related_pids()` scan; each of those pids gets
`_kill_process_tree(pid, force=True)`, which issues one `kill()` per pid of
the resolved process tree (every raised `NoSuchProcess`/`AccessDenied` is
swallowed). The result is the set of pids to which a kill signal is issued. -/
def ChromeWithProperCleanup.forceKillProcessTreeKills (spawned : Finset Nat)
    (table : List ProcessRecord) : Finset Nat :=
  (spawned ∪ ChromeWithProperCleanup.getAllChromeRelatedPids table).biUnion
    fun p => (ChromeWithProperCleanup.getProcessTree table p).toFinset

/-- An observable step of a `_verify_cleanup` run. -/
inductive VerifyAction
  | rescan
  | killPass (victims : Finset Nat)
  | wait
  | warnReport (count : Nat)
deriving DecidableEq

/-- chrome_with_cleanup_fixed.py lines 247-276, `_verify_cleanup`: rescan; if
survivors exist, one unconditional `kill()` pass over them, a 0.5 s wait, one
more rescan, and — if still non-empty — a warning carrying the survivor
count. `scan1`/`scan2` are the tables the two inventory scans observe. -/
def ChromeWithProperCleanup.verifyCleanupTrace (scan1 scan2 : List ProcessRecord) :
    List VerifyAction :=
  let rem1 := ChromeWithProperCleanup.getAllChromeRelatedPids scan1
  if rem1 = ∅ then [VerifyAction.rescan]
  else
    let rem2 := ChromeWithProperCleanup.getAllChromeRelatedPids scan2
    [VerifyAction.rescan, VerifyAction.killPass rem1, VerifyAction.wait,
      VerifyAction.rescan] ++
      (if rem2 = ∅ then [] else [VerifyAction.warnReport rem2.card])

/-- chrome_with_cleanup_fixed.py lines 270-275: the per-survivor identifying
info the final warning prints — pid and name only (no command line). -/
def ChromeWithProperCleanup.verifyReportEntries (scan2 : List ProcessRecord) :
    List (Nat × String) :=
  (scan2.filter fun r => ChromeWithProperCleanup.matches r).map
    fun r => (r.pid, r.name)

/- ------------------------------------------------------------------
src/chrome_with_aggressive_cleanup.py : class ChromeUltraAggressiveCleanup
------------------------------------------------------------------ -/

/-- chrome_with_aggressive_cleanup.py lines 205-224: the classification of
`_get_all_chrome_related_pids` — the broad 12-way disjunction over lowered
name, lowered exe and the lowered joined command line. -/
def ChromeUltraAggressiveCleanup.matches (r : ProcessRecord) : Bool :=
  pyIn "chrome" (pyLower r.name) || pyIn "chromium" (pyLower r.name) ||
  pyIn "chromedriver" (pyLower r.name) ||
  pyIn "chrome" (pyLower r.exe) || pyIn "chromium" (pyLower r.exe) ||
  pyIn "chromedriver" (pyLower r.exe) ||
  pyIn "--type=" (pyLower (cmdlineJoined r)) ||
  pyIn "--user-data-dir=" (pyLower (cmdlineJoined r)) ||
  pyIn "--remote-debugging-port=" (pyLower (cmdlineJoined r)) ||
  pyIn "--test-type=" (pyLower (cmdlineJoined r)) ||
  pyIn "headless" (pyLower (cmdlineJoined r)) ||
  pyIn "no-sandbox" (pyLower (cmdlineJoined r))

/-- The name-substring markers of the aggressive classification (lines
211-214). -/
def ChromeUltraAggressiveCleanup.hasNameMarker (r : ProcessRecord) : Bool :=
  ["chrome", "chromium", "chromedriver"].any fun k => pyIn k (pyLower r.name)

/-- The executable-path substring markers of the aggressive classification
(lines 215-217). -/
def ChromeUltraAggressiveCleanup.hasExeMarker (r : ProcessRecord) : Bool :=
  ["chrome", "chromium", "chromedriver"].any fun k => pyIn k (pyLower r.exe)

/-- The command-line flag markers of the aggressive classification (lines
218-223). -/
def ChromeUltraAggressiveCleanup.hasCmdlineMarker (r : ProcessRecord) : Bool :=
  ["--type=", "--user-data-dir=", "--remote-debugging-port=", "--test-type=",
    "headless", "no-sandbox"].any fun k => pyIn k (pyLower (cmdlineJoined r))

/-- chrome_with_aggressive_cleanup.py lines 198-232,
`_get_all_chrome_related_pids`. -/
def ChromeUltraAggressiveCleanup.getAllChromeRelatedPids
    (table : List ProcessRecord) : Finset Nat :=
  ((table.filter fun r => ChromeUltraAggressiveCleanup.matches r).map
    fun r => r.pid).toFinset

/-- chrome_with_aggressive_cleanup.py lines 304-325,
`_strategy_python_process_cleanup`: every tracked pid and every pid of a fresh
`_get_all_chrome_related_pids()` scan gets `_kill_process_tree_aggressive`
(lines 327-354), which signals every pid of the same recursive-children tree
that `_get_process_tree` resolves (all per-pid errors are swallowed). The
result is the set of pids to which a terminate/kill signal is issued. -/
def ChromeUltraAggressiveCleanup.strategyPythonProcessCleanupKills
    (allPids : Finset Nat) (table : List ProcessRecord) : Finset Nat :=
  (allPids ∪ ChromeUltraAggressiveCleanup.getAllChromeRelatedPids table).biUnion
    fun p => (ChromeWithProperCleanup.getProcessTree table p).toFinset

/-- chrome_with_aggressive_cleanup.py lines 463-484, `_verify_cleanup`: wait
1 s, scan once, and if survivors remain emit the warning with their count; no
kill operation is performed here. -/
def ChromeUltraAggressiveCleanup.verifyCleanupTrace (scan : List ProcessRecord) :
    List VerifyAction :=
  let rem := ChromeUltraAggressiveCleanup.getAllChromeRelatedPids scan
  [VerifyAction.wait, VerifyAction.rescan] ++
    (if rem = ∅ then [] else [VerifyAction.warnReport rem.card])

/-- chrome_with_aggressive_cleanup.py line 484: the survivor count
`_verify_cleanup` returns. -/
def ChromeUltraAggressiveCleanup.verifyCleanupCount (scan : List ProcessRecord) :
    Nat :=
  (ChromeUltraAggressiveCleanup.getAllChromeRelatedPids scan).card

/-- chrome_with_aggressive_cleanup.py lines 475-480: the per-survivor
identifying info printed — pid, name, and the command line truncated to its
first two arguments (`" ".join(proc.cmdline()[:2])`; the empty cmdline prints
as `""`, which `String.intercalate` of `[]` also yields). -/
def ChromeUltraAggressiveCleanup.verifyReportEntries (scan : List ProcessRecord) :
    List (Nat × String × String) :=
  (scan.filter fun r => ChromeUltraAggressiveCleanup.matches r).map
    fun r => (r.pid, r.name, String.intercalate " " (r.cmdline.take 2))

/-- Counts the kill passes of a `_verify_cleanup` trace. -/
def countKillPasses (tr : List VerifyAction) : Nat :=
  tr.countP fun a =>
    match a with
    | VerifyAction.killPass _ => true
    | _ => false

/-- Counts the inventory scans of a `_verify_cleanup` trace. -/
def countRescans (tr : List VerifyAction) : Nat :=
  tr.countP fun a =>
    match a with
    | VerifyAction.rescan => true
    | _ => false

/- ------------------------------------------------------------------
src/job.py : the workflow entry point and the calendar scan
------------------------------------------------------------------ -/

/-- The keyword parameters accepted by `ChromeWithFullCleanup.__init__`
(chrome_with_cleanup.py line 13): `headless` and `cleanup_timeout`. -/
def Job.chromeWithFullCleanupParamNames : List String :=
  ["headless", "cleanup_timeout"]

/-- Python call semantics for keyword arguments: passing a keyword that is not
a parameter of the callee raises `TypeError` before the callee's body runs. -/
def Job.callChromeWithFullCleanupKwargs (kwargs : List String) :
    Except PyExc Unit :=
  match kwargs.find? fun k => !(Job.chromeWithFullCleanupParamNames.contains k) with
  | Option.some k => Except.error (PyExc.typeError k)
  | Option.none => Except.ok ()

/-- job.py lines 17-24, `process(logger, driver)`: it constructs
`ChromeWithFullCleanup(logger=logger, driver=driver)`; only if that call
succeeds is the context entered and the appointment page visited. The result
is the list of page URLs the run gets to visit. -/
def Job.processVisits {α β : Type} (logger : α) (driver : β) :
    Except PyExc (List String) :=
  let _ := logger
  let _ := driver
  match Job.callChromeWithFullCleanupKwargs ["logger", "driver"] with
  | Except.error e => Except.error e
  | Except.ok _ => Except.ok ["https://pieraksts.mfa.gov.lv/en/moscow/index"]

/-- A Python runtime value of the kinds flowing through the calendar scan:
`None`, a `str` instance, or a type object such as the builtin `str`. Two
values of distinct constructors are never the same object. -/
inductive PyObj
  | pyNone
  | pyStr (s : String)
  | pyType (typeName : String)
deriving DecidableEq

/-- The value `get_attribute` returns (a string or `None`) as a `PyObj`. -/
def Job.injAttr : Option String → PyObj
  | Option.none => PyObj.pyNone
  | Option.some s => PyObj.pyStr s

/-- Python's `v is str`: identity with the builtin type object `str`. Only the
type object itself is identical to it; in particular no `str` instance and not
`None`. -/
def Job.pyIsStr : PyObj → Bool
  | PyObj.pyType n => n == "str"
  | _ => false

/-- A calendar `td` cell as the scan sees it: its `class` attribute and its
`data-date` attribute (each a string or `None`). -/
structure Job.Col where
  cls : Option String
  dataDate : Option String
deriving DecidableEq

/-- Splits a character sequence at each '-', as the "%Y-%m-%d" format does. -/
def Job.splitDash : List Char → List Char → List String
  | [], acc => [String.mk acc.reverse]
  | c :: cs, acc =>
    if c = '-' then String.mk acc.reverse :: Job.splitDash cs []
    else Job.splitDash cs (c :: acc)

def Job.digitsToNatAux : List Char → Nat → Option Nat
  | [], acc => Option.some acc
  | c :: cs, acc =>
    if c.isDigit then Job.digitsToNatAux cs (acc * 10 + (c.toNat - 48))
    else Option.none

/-- A non-empty all-digit field parsed as a number. -/
def Job.parseNatField (s : String) : Option Nat :=
  match s.data with
  | [] => Option.none
  | cs => Job.digitsToNatAux cs 0

/-- job.py line 327, `datetime.strptime(col_date, "%Y-%m-%d").date()`, mapped
to the comparable key `y * 10000 + m * 100 + d`; a string that does not parse
raises `ValueError`. (The embedded validation is slightly coarser than
strptime's per-month day bound; no theorem below depends on which well-formed
strings are accepted.) -/
def Job.strptimeDateKey (s : String) : Except PyExc Nat :=
  match (Job.splitDash s.data []).map Job.parseNatField with
  | [Option.some y, Option.some m, Option.some d] =>
    if 1 ≤ m ∧ m ≤ 12 ∧ 1 ≤ d ∧ d ≤ 31 then
      Except.ok (y * 10000 + m * 100 + d)
    else Except.error (PyExc.valueError s)
  | _ => Except.error (PyExc.valueError s)

/-- job.py lines 317-346, the inner loop over the cells of one row: skip a
cell whose `data-date` is `None` or empty; parse the date (propagating
`ValueError`); then the availability test
`if col_class is str and "cal-active" in col_class:` — under it the date is
added to `available_dates` and, when inside the preferred range, the cell is
chosen and the loops break. -/
def Job.scanCols (lo hi : Nat) :
    List Job.Col → Finset Nat → Except PyExc (Option Job.Col × Finset Nat)
  | [], avail => Except.ok (Option.none, avail)
  | col :: rest, avail =>
    match col.dataDate with
    | Option.none => Job.scanCols lo hi rest avail
    | Option.some ds =>
      if ds = "" then Job.scanCols lo hi rest avail
      else
        match Job.strptimeDateKey ds with
        | Except.error e => Except.error e
        | Except.ok key =>
          if Job.pyIsStr (Job.injAttr col.cls) &&
              pyIn "cal-active" ((col.cls).getD "") then
            if lo ≤ key ∧ key ≤ hi then
              Except.ok (Option.some col, insert key avail)
            else Job.scanCols lo hi rest (insert key avail)
          else Job.scanCols lo hi rest avail

/-- job.py lines 312-349, the outer loop over the rows, stopping as soon as a
date was chosen. -/
def Job.findDateInRowsAux (lo hi : Nat) :
    List (List Job.Col) → Finset Nat → Except PyExc (Option Job.Col × Finset Nat)
  | [], avail => Except.ok (Option.none, avail)
  | row :: rows, avail =>
    match Job.scanCols lo hi row avail with
    | Except.error e => Except.error e
    | Except.ok (Option.some c, avail2) => Except.ok (Option.some c, avail2)
    | Except.ok (Option.none, avail2) => Job.findDateInRowsAux lo hi rows avail2

/-- job.py lines 304-357, `find_date_in_rows`: the chosen cell (or `None`) and
the collected `available_dates` set; lines 351-355 notify the bot exactly when
that set is non-empty. -/
def Job.findDateInRows (rows : List (List Job.Col)) (lo hi : Nat) :
    Except PyExc (Option Job.Col × Finset Nat) :=
  Job.findDateInRowsAux lo hi rows ∅

/-- `Steps table a l b`: from pid `a`, the pids in `l` are visited by
successive parent-to-child moves of the table's parent graph, ending at `b`
(`l = []` means `b = a`). -/
inductive Steps (table : List ProcessRecord) : Nat → List Nat → Nat → Prop
  | nil (a : Nat) : Steps table a [] a
  | cons {a c b : Nat} {l : List Nat} :
      c ∈ ChromeWithProperCleanup.childPids table a →
      Steps table c l b → Steps table a (c :: l) b

/-- `b` is a transitive descendant of `a` in the table's parent graph. -/
def Descendant (table : List ProcessRecord) (a b : Nat) : Prop :=
  ∃ l, l ≠ [] ∧ Steps table a l b

/-- A synthetic parent/child graph of depth 3: root 1 with children 2 and 3,
grandchild 4 under 2, great-grandchild 5 under 4. -/
def depth3Table : List ProcessRecord :=
  [{ pid := 1, name := "chromedriver", exe := "", cmdline := [], ppid := 0 },
   { pid := 2, name := "chrome", exe := "", cmdline := [], ppid := 1 },
   { pid := 3, name := "chrome", exe := "", cmdline := [], ppid := 1 },
   { pid := 4, name := "chrome", exe := "", cmdline := [], ppid := 2 },
   { pid := 5, name := "chrome", exe := "", cmdline := [], ppid := 4 }]

/- ------------------------------------------------------------------
Theorems
------------------------------------------------------------------ -/

theorem pyIn_true_iff {needle hay : String} :
    pyIn needle hay = true ↔ needle.toList <:+: hay.toList := by
  simp [pyIn]

theorem pyIn_mono_of_infix {n₁ n₂ hay : String}
    (hinf : n₁.toList <:+: n₂.toList) (h : pyIn n₂ hay = true) :
    pyIn n₁ hay = true :=
  pyIn_true_iff.mpr (hinf.trans (pyIn_true_iff.mp h))

/-- C9: within chrome_with_cleanup.py the spawn-tracking classification
(`_get_chrome_pids`, keywords "chrome"/"chromium") and the
force-kill/verification classification (`_force_kill_all_chrome`, keywords
"chrome"/"chromium"/"chromedriver") agree on every process name: the extra
"chromedriver" keyword adds nothing, since a name containing "chromedriver"
already contains "chrome". In the fixed and aggressive variants the tracker,
tree resolver and verifier all call the one `_get_all_chrome_related_pids`
predicate, so their agreement is definitional. -/
theorem c9_tracker_killer_predicates_agree :
    ∀ name : String,
      ChromeWithFullCleanup.getChromePidsMatches name =
        ChromeWithFullCleanup.forceKillMatches name := by
  intro name
  unfold ChromeWithFullCleanup.getChromePidsMatches
    ChromeWithFullCleanup.forceKillMatches
  cases hcd : pyIn "chromedriver" (pyLower name) with
  | false => simp [hcd]
  | true =>
    have hc : pyIn "chrome" (pyLower name) = true :=
      pyIn_mono_of_infix (by decide) hcd
    simp [hc, hcd]

/-- C5: the spawn-delta computed on `__enter__` is exactly the set difference
`after − before`; in particular `delta(S, S) = ∅` and
`delta(∅, \x7b1,2,3\x7d) = \x7b1,2,3\x7d`. -/
theorem c5_spawn_delta_is_sdiff :
    (∀ (before after : Finset Nat) (p : Nat),
        p ∈ ChromeWithFullCleanup.spawnedDelta before after ↔
          p ∈ after ∧ p ∉ before)
  ∧ (∀ S : Finset Nat, ChromeWithFullCleanup.spawnedDelta S S = ∅)
  ∧ ChromeWithFullCleanup.spawnedDelta ∅ {1, 2, 3} = {1, 2, 3} := by
  refine ⟨fun _ _ _ => Finset.mem_sdiff, fun S => Finset.sdiff_self S, ?_⟩
  simp [ChromeWithFullCleanup.spawnedDelta]

/-- C3: `process(logger, driver)` constructs
`ChromeWithFullCleanup(logger=..., driver=...)`, but `__init__` only accepts
`headless` and `cleanup_timeout`; the call raises `TypeError` on the first
unexpected keyword and no page is ever visited. -/
theorem c3_process_raises_type_error :
    ∀ {α β : Type} (logger : α) (driver : β),
      Job.processVisits logger driver = Except.error (PyExc.typeError "logger")
      ∧ (Job.processVisits logger driver).isOk = false := by
  intro α β logger driver
  exact ⟨rfl, rfl⟩

/-- C2: each variant's classification is true iff at least one of its defined
markers is present — for the aggressive variant a name-substring marker, an
executable-substring marker or a command-line flag marker; for the fixed
variant a name-substring marker or one of its two command-line markers; for
the original variant one of its two name-substring markers — and a record
carrying none of the markers is classified false. -/
theorem c2_matches_iff_some_marker :
    (∀ r : ProcessRecord,
        ChromeUltraAggressiveCleanup.matches r = true ↔
          (ChromeUltraAggressiveCleanup.hasNameMarker r = true ∨
            ChromeUltraAggressiveCleanup.hasExeMarker r = true ∨
            ChromeUltraAggressiveCleanup.hasCmdlineMarker r = true))
  ∧ (∀ r : ProcessRecord,
        ChromeWithProperCleanup.matches r = true ↔
          ((["chrome", "chromium", "chromedriver"].any fun k =>
              pyIn k (pyLower r.name)) = true ∨
            pyIn "chromedriver" (pyLower (cmdlineJoined r)) = true ∨
            pyIn "--port=" (cmdlineJoined r) = true))
  ∧ (∀ name : String,
        ChromeWithFullCleanup.getChromePidsMatches name = true ↔
          (["chrome", "chromium"].any fun k => pyIn k (pyLower name)) = true)
  ∧ ChromeUltraAggressiveCleanup.matches
      { pid := 1, name := "bash", exe := "/usr/bin/bash",
        cmdline := ["bash"], ppid := 0 } = false := by
  refine ⟨fun r => ?_, fun r => ?_, fun name => ?_, by decide⟩
  · simp only [ChromeUltraAggressiveCleanup.matches,
      ChromeUltraAggressiveCleanup.hasNameMarker,
      ChromeUltraAggressiveCleanup.hasExeMarker,
      ChromeUltraAggressiveCleanup.hasCmdlineMarker,
      List.any_cons, List.any_nil, Bool.or_eq_true, Bool.or_false]
    tauto
  · simp only [ChromeWithProperCleanup.matches,
      List.any_cons, List.any_nil, Bool.or_eq_true, Bool.or_false]
    tauto
  · simp only [ChromeWithFullCleanup.getChromePidsMatches,
      List.any_cons, List.any_nil, Bool.or_eq_true, Bool.or_false]

/-- C4: the claim (and the spec) say the release-time cleanup sequence never
raises, but `_force_kill_all_chrome` does: for a snapshot holding one
chrome-named record whose process exits after the graceful wait times out and
before the kill is issued, `proc.terminate()` raises `psutil.NoSuchProcess`,
the bare `except` falls back to `os.kill(pid, SIGKILL)` (line 102 of
chrome_with_cleanup.py), and the resulting `ProcessLookupError` is not caught
by the surrounding `except (psutil.NoSuchProcess, psutil.AccessDenied)`, so
`__exit__` propagates it to its caller. -/
theorem c4_exit_cleanup_raises_process_lookup_error :
    ChromeWithFullCleanup.exitCleanup {77} (fun _ => {77}) 10
        [{ pid := 77, name := "chrome", exe := "/opt/google/chrome/chrome",
            cmdline := [], ppid := 1 }]
        (fun _ => false)
      = Except.error PyExc.processLookupError := by rfl

theorem ChromeWithFullCleanup.waitLoop_iff (spawned : Finset Nat)
    (live : Nat → Finset Nat) (timeout : Nat) :
    ∀ fuel t, timeout ≤ t + 2 * fuel →
      (ChromeWithFullCleanup.waitLoop spawned live timeout fuel t = true ↔
        ∃ k, t + 2 * k < timeout ∧ spawned ∩ live (t + 2 * k) = ∅) := by
  intro fuel
  induction fuel with
  | zero =>
    intro t ht
    simp only [ChromeWithFullCleanup.waitLoop]
    constructor
    · intro h; cases h
    · rintro ⟨k, hk, -⟩; omega
  | succ fuel ih =>
    intro t ht
    simp only [ChromeWithFullCleanup.waitLoop]
    by_cases hlt : t < timeout
    · by_cases hemp : spawned ∩ live t = ∅
      · simp only [hlt, if_true, hemp, if_pos rfl]
        exact ⟨fun _ => ⟨0, by simpa using hlt, by simpa using hemp⟩,
          fun _ => trivial⟩
      · simp only [hlt, if_true, if_neg hemp]
        rw [ih (t + 2) (by omega)]
        constructor
        · rintro ⟨k, hk, hk2⟩
          refine ⟨k + 1, by omega, ?_⟩
          have harith : t + 2 * (k + 1) = t + 2 + 2 * k := by omega
          rw [harith]; exact hk2
        · rintro ⟨k, hk, hk2⟩
          match k, hk, hk2 with
          | 0, hk, hk2 => exact absurd (by simpa using hk2) hemp
          | k + 1, hk, hk2 =>
            refine ⟨k, by omega, ?_⟩
            have harith : t + 2 + 2 * k = t + 2 * (k + 1) := by omega
            rw [harith]; exact hk2
    · simp only [if_neg hlt]
      constructor
      · intro h; cases h
      · rintro ⟨k, hk, -⟩; omega

/-- C1: the graceful-shutdown wait polls the live inventory at the fixed
0.2 s interval (2 deciseconds) and returns true exactly when some poll tick
before the timeout sees no tracked process alive, false when the timeout
elapses first; in particular for one tracked process exiting at T = 3 s
(30 deciseconds), timeout 2 s (20) yields false and timeout 5 s (50) yields
true. -/
theorem c1_graceful_wait_poll_semantics :
    (∀ (spawned : Finset Nat) (live : Nat → Finset Nat) (timeout : Nat),
        ChromeWithFullCleanup.waitForProcessCleanup spawned live timeout = true ↔
          ∃ k, 2 * k < timeout ∧ spawned ∩ live (2 * k) = ∅)
  ∧ ChromeWithFullCleanup.waitForProcessCleanup {4242}
      (simulatedExitAt 30 4242) 20 = false
  ∧ ChromeWithFullCleanup.waitForProcessCleanup {4242}
      (simulatedExitAt 30 4242) 50 = true := by
  refine ⟨fun spawned live timeout => ?_, by decide, by decide⟩
  have h := ChromeWithFullCleanup.waitLoop_iff spawned live timeout timeout 0
    (by omega)
  simpa using h

/-- C6 counterexample: with an empty tracked set but one chrome-named process
in the live inventory, `_force_kill_process_tree` still unions a fresh
`_get_all_chrome_related_pids()` scan into `pids_to_kill` and issues a kill —
the claim's "zero kill operations" is false at this input. -/
theorem c6_counterexample_kills_despite_empty_tracked :
    ChromeWithProperCleanup.forceKillProcessTreeKills ∅
        [{ pid := 100, name := "chrome", exe := "/opt/google/chrome/chrome",
            cmdline := [], ppid := 1 }] ≠ ∅ := by decide

/-- C6 (amended): with an empty tracked set, `_kill_chrome_processes` issues
zero signals unconditionally; the fixed variant's `_force_kill_process_tree`
and the aggressive variant's `_strategy_python_process_cleanup` additionally
sweep a fresh inventory scan, so they perform zero kill operations exactly
when that scan finds no family-matching process; all three return without
error (every per-kill exception is swallowed). -/
theorem c6_amended_empty_tracked_zero_ops :
    ChromeWithFullCleanup.killChromeProcessesKills [] = []
  ∧ (∀ table, ChromeWithProperCleanup.getAllChromeRelatedPids table = ∅ →
      ChromeWithProperCleanup.forceKillProcessTreeKills ∅ table = ∅)
  ∧ (∀ table, ChromeUltraAggressiveCleanup.getAllChromeRelatedPids table = ∅ →
      ChromeUltraAggressiveCleanup.strategyPythonProcessCleanupKills ∅ table = ∅) := by
  refine ⟨rfl, fun table h => ?_, fun table h => ?_⟩
  · simp [ChromeWithProperCleanup.forceKillProcessTreeKills, h]
  · simp [ChromeUltraAggressiveCleanup.strategyPythonProcessCleanupKills, h]

theorem c6_amended_witness :
    ChromeWithProperCleanup.getAllChromeRelatedPids [] = ∅
    ∧ ChromeWithProperCleanup.forceKillProcessTreeKills ∅ [] = ∅
    ∧ ChromeUltraAggressiveCleanup.strategyPythonProcessCleanupKills ∅ [] = ∅ :=
  ⟨by decide, c6_amended_empty_tracked_zero_ops.2.1 [] (by decide),
    c6_amended_empty_tracked_zero_ops.2.2 [] (by decide)⟩

/-- C8 counterexample: the aggressive variant's `_verify_cleanup` finds a
survivor yet performs no kill pass at all (it only waits, scans once and
reports), refuting "whenever survivors are found, performs exactly one
additional unconditional kill pass". -/
theorem c8_counterexample_no_kill_pass :
    ChromeUltraAggressiveCleanup.getAllChromeRelatedPids
        [{ pid := 300, name := "chrome", exe := "", cmdline := [], ppid := 1 }]
      ≠ ∅
    ∧ countKillPasses (ChromeUltraAggressiveCleanup.verifyCleanupTrace
        [{ pid := 300, name := "chrome", exe := "", cmdline := [], ppid := 1 }])
      = 0 := by
  exact ⟨by decide, by decide⟩

/-- C8 (amended): the fixed variant's verifier performs exactly one kill pass
when the first rescan finds survivors and none otherwise, never scans more
than twice, and reports survivors by pid and name (no command line); the
aggressive variant's verifier performs no kill pass, scans exactly once,
returns the survivor count, and reports pid, name and the command line
truncated to its first two arguments; neither loops or escalates further. -/
theorem c8_amended_verifier_structure :
    (∀ scan1 scan2,
        countKillPasses (ChromeWithProperCleanup.verifyCleanupTrace scan1 scan2) =
          if ChromeWithProperCleanup.getAllChromeRelatedPids scan1 = ∅ then 0
          else 1)
  ∧ (∀ scan1 scan2,
        countRescans (ChromeWithProperCleanup.verifyCleanupTrace scan1 scan2) ≤ 2)
  ∧ (∀ scan, countKillPasses (ChromeUltraAggressiveCleanup.verifyCleanupTrace scan) = 0)
  ∧ (∀ scan, countRescans (ChromeUltraAggressiveCleanup.verifyCleanupTrace scan) = 1)
  ∧ (∀ scan, ChromeUltraAggressiveCleanup.verifyCleanupCount scan =
      (ChromeUltraAggressiveCleanup.getAllChromeRelatedPids scan).card)
  ∧ (∀ scan, ChromeUltraAggressiveCleanup.verifyReportEntries scan =
      (scan.filter fun r => ChromeUltraAggressiveCleanup.matches r).map
        fun r => (r.pid, r.name, String.intercalate " " (r.cmdline.take 2)))
  ∧ (∀ scan2, ChromeWithProperCleanup.verifyReportEntries scan2 =
      (scan2.filter fun r => ChromeWithProperCleanup.matches r).map
        fun r => (r.pid, r.name)) := by
  refine ⟨fun scan1 scan2 => ?_, fun scan1 scan2 => ?_, fun scan => ?_,
    fun scan => ?_, fun _ => rfl, fun _ => rfl, fun _ => rfl⟩
  · by_cases h : ChromeWithProperCleanup.getAllChromeRelatedPids scan1 = ∅
    · simp [ChromeWithProperCleanup.verifyCleanupTrace, h, countKillPasses]
    · by_cases h2 : ChromeWithProperCleanup.getAllChromeRelatedPids scan2 = ∅ <;>
        simp [ChromeWithProperCleanup.verifyCleanupTrace, h, h2, countKillPasses,
          List.countP_cons, List.countP_append]
  · by_cases h : ChromeWithProperCleanup.getAllChromeRelatedPids scan1 = ∅
    · simp [ChromeWithProperCleanup.verifyCleanupTrace, h, countRescans]
    · by_cases h2 : ChromeWithProperCleanup.getAllChromeRelatedPids scan2 = ∅ <;>
        simp [ChromeWithProperCleanup.verifyCleanupTrace, h, h2, countRescans,
          List.countP_cons, List.countP_append]
  · by_cases h : ChromeUltraAggressiveCleanup.getAllChromeRelatedPids scan = ∅ <;>
      simp [ChromeUltraAggressiveCleanup.verifyCleanupTrace, h, countKillPasses,
        List.countP_cons, List.countP_append]
  · by_cases h : ChromeUltraAggressiveCleanup.getAllChromeRelatedPids scan = ∅ <;>
      simp [ChromeUltraAggressiveCleanup.verifyCleanupTrace, h, countRescans,
        List.countP_cons, List.countP_append]

theorem Job.pyIsStr_injAttr_false (x : Option String) :
    Job.pyIsStr (Job.injAttr x) = false := by
  cases x <;> rfl

theorem Job.scanCols_none (lo hi : Nat) :
    ∀ (cols : List Job.Col) (avail : Finset Nat),
      Job.scanCols lo hi cols avail = Except.ok (Option.none, avail)
      ∨ ∃ e, Job.scanCols lo hi cols avail = Except.error e := by
  intro cols
  induction cols with
  | nil => intro avail; exact Or.inl rfl
  | cons col rest ih =>
    intro avail
    unfold Job.scanCols
    cases hdd : col.dataDate with
    | none => exact ih avail
    | some ds =>
      by_cases hds : ds = ""
      · simp only [hds, if_pos rfl]
        exact ih avail
      · simp only [if_neg hds]
        cases hkey : Job.strptimeDateKey ds with
        | error e => exact Or.inr ⟨e, rfl⟩
        | ok key =>
          simp only [Job.pyIsStr_injAttr_false, Bool.false_and,
            Bool.false_eq_true, if_false]
          exact ih avail

theorem Job.findDateInRowsAux_none (lo hi : Nat) :
    ∀ (rows : List (List Job.Col)) (avail : Finset Nat),
      Job.findDateInRowsAux lo hi rows avail = Except.ok (Option.none, avail)
      ∨ ∃ e, Job.findDateInRowsAux lo hi rows avail = Except.error e := by
  intro rows
  induction rows with
  | nil => intro avail; exact Or.inl rfl
  | cons row rest ih =>
    intro avail
    unfold Job.findDateInRowsAux
    rcases Job.scanCols_none lo hi row avail with h | ⟨e, h⟩
    · rw [h]; exact ih avail
    · rw [h]; exact Or.inr ⟨e, rfl⟩

/-- C10: whenever `find_date_in_rows` returns (it raises `ValueError` only on
a malformed `data-date` string), it returns `None` and an empty
`available_dates` set — the availability test `col_class is str and
"cal-active" in col_class` compares the class-attribute value to the `str`
type object by identity, which is false for every string, so no cell is ever
selected and no availability notification is sent. -/
theorem c10_find_date_always_none (rows : List (List Job.Col)) (lo hi : Nat)
    (r : Option Job.Col × Finset Nat)
    (h : Job.findDateInRows rows lo hi = Except.ok r) :
    r.1 = Option.none ∧ r.2 = ∅ := by
  rcases Job.findDateInRowsAux_none lo hi rows ∅ with h2 | ⟨e, h2⟩
  · rw [Job.findDateInRows, h2] at h
    cases h
    exact ⟨rfl, rfl⟩
  · rw [Job.findDateInRows, h2] at h
    cases h

theorem c10_witness :
    Job.findDateInRows
        [[{ cls := Option.some "cal cal-active", dataDate := Option.some "2026-01-05" },
          { cls := Option.none, dataDate := Option.none }]] 20260101 20261231
      = Except.ok (Option.none, ∅)
    ∧ ((Option.none : Option Job.Col) = Option.none ∧ (∅ : Finset Nat) = ∅) := by
  have h : Job.findDateInRows
      [[{ cls := Option.some "cal cal-active", dataDate := Option.some "2026-01-05" },
        { cls := Option.none, dataDate := Option.none }]] 20260101 20261231
      = Except.ok (Option.none, ∅) := by rfl
  exact ⟨h, c10_find_date_always_none _ 20260101 20261231 (Option.none, ∅) h⟩

theorem mem_childPids_iff {table : List ProcessRecord} {p c : Nat} :
    c ∈ ChromeWithProperCleanup.childPids table p ↔
      ∃ r, r ∈ table ∧ r.ppid = p ∧ r.pid = c := by
  simp only [ChromeWithProperCleanup.childPids, List.mem_map, List.mem_filter,
    beq_iff_eq]
  constructor
  · rintro ⟨r, ⟨hr, hpp⟩, hp⟩; exact ⟨r, hr, hpp, hp⟩
  · rintro ⟨r, hr, hpp, hp⟩; exact ⟨r, ⟨hr, hpp⟩, hp⟩

theorem childPids_subset_pids {table : List ProcessRecord} {p c : Nat}
    (h : c ∈ ChromeWithProperCleanup.childPids table p) :
    c ∈ ChromeWithProperCleanup.pids table := by
  obtain ⟨r, hr, -, hp⟩ := mem_childPids_iff.mp h
  exact List.mem_map.mpr ⟨r, hr, hp⟩

theorem steps_nil_eq {table : List ProcessRecord} {a b : Nat}
    (h : Steps table a [] b) : b = a := by
  cases h; rfl

theorem steps_mem_pids {table : List ProcessRecord} {a b : Nat} {l : List Nat}
    (h : Steps table a l b) : ∀ x ∈ l, x ∈ ChromeWithProperCleanup.pids table := by
  induction h with
  | nil => intro x hx; cases hx
  | cons hc _ ih =>
    intro x hx
    rcases List.mem_cons.mp hx with rfl | hx
    · exact childPids_subset_pids hc
    · exact ih x hx

theorem steps_append_split {table : List ProcessRecord} {a b : Nat}
    {l₁ l₂ : List Nat} (h : Steps table a (l₁ ++ l₂) b) :
    ∃ m, Steps table a l₁ m ∧ Steps table m l₂ b := by
  induction l₁ generalizing a with
  | nil => exact ⟨a, Steps.nil a, h⟩
  | cons c t ih =>
    cases h with
    | cons hc hrest =>
      obtain ⟨m, h1, h2⟩ := ih hrest
      exact ⟨m, Steps.cons hc h1, h2⟩

theorem steps_last_decomp {table : List ProcessRecord} {a b : Nat}
    {l : List Nat} (h : Steps table a l b) (hne : l ≠ []) :
    ∃ l₀ u, l = l₀ ++ [b] ∧ Steps table a l₀ u ∧
      b ∈ ChromeWithProperCleanup.childPids table u := by
  induction h with
  | nil => exact absurd rfl hne
  | cons hc hrest ih =>
    rename_i a c b t
    cases t with
    | nil =>
      have hb : b = c := steps_nil_eq hrest
      subst hb
      exact ⟨[], a, rfl, Steps.nil a, hc⟩
    | cons d t' =>
      obtain ⟨l₀, u, heq, hsteps, hchild⟩ := ih (by simp)
      exact ⟨c :: l₀, u, by rw [heq]; rfl, Steps.cons hc hsteps, hchild⟩

theorem mem_descend_iff {table : List ProcessRecord} :
    ∀ (fuel : Nat) (a p : Nat),
      p ∈ ChromeWithProperCleanup.descend table fuel a ↔
        ∃ l, l ≠ [] ∧ l.length ≤ fuel ∧ Steps table a l p := by
  intro fuel
  induction fuel with
  | zero =>
    intro a p
    simp only [ChromeWithProperCleanup.descend, List.not_mem_nil, false_iff]
    rintro ⟨l, hne, hlen, -⟩
    cases l with
    | nil => exact hne rfl
    | cons c t => simp at hlen
  | succ fuel ih =>
    intro a p
    simp only [ChromeWithProperCleanup.descend, List.mem_flatMap, List.mem_cons]
    constructor
    · rintro ⟨c, hc, rfl | hp⟩
      · exact ⟨[p], by simp, by simp, Steps.cons hc (Steps.nil p)⟩
      · obtain ⟨l, hne, hlen, hsteps⟩ := (ih c p).mp hp
        exact ⟨c :: l, by simp, by simpa using Nat.succ_le_succ hlen,
          Steps.cons hc hsteps⟩
    · rintro ⟨l, hne, hlen, hsteps⟩
      cases hsteps with
      | nil => exact absurd rfl hne
      | cons hc hrest =>
        rename_i c t
        refine ⟨c, hc, ?_⟩
        cases t with
        | nil => exact Or.inl (steps_nil_eq hrest)
        | cons d t' =>
          exact Or.inr ((ih c p).mpr ⟨d :: t', by simp, by simpa using hlen, hrest⟩)

theorem steps_bypass {table : List ProcessRecord} :
    ∀ (n : Nat) (a b : Nat) (l : List Nat), l.length ≤ n → Steps table a l b →
      ∃ l', l' ⊆ l ∧ l'.length ≤ l.length ∧ (a :: l').Nodup ∧
        Steps table a l' b := by
  intro n
  induction n with
  | zero =>
    intro a b l hl h
    have : l = [] := List.length_eq_zero.mp (Nat.le_zero.mp hl)
    subst this
    exact ⟨[], by simp, by simp, by simp, h⟩
  | succ n ih =>
    intro a b l hl h
    by_cases hmem : a ∈ l
    · obtain ⟨s, t, rfl⟩ := List.append_of_mem hmem
      obtain ⟨m, -, h2⟩ := steps_append_split h
      cases h2 with
      | cons hc' h3 =>
        have hlt : t.length ≤ n := by
          simp only [List.length_append, List.length_cons] at hl
          omega
        obtain ⟨l', hsub, hlen, hnd, hst⟩ := ih a b t hlt h3
        refine ⟨l', fun x hx => ?_, ?_, hnd, hst⟩
        · simp only [List.mem_append, List.mem_cons]
          exact Or.inr (Or.inr (hsub hx))
        · simp only [List.length_append, List.length_cons]
          omega
    · cases l with
      | nil => exact ⟨[], by simp, by simp, by simp, h⟩
      | cons c t =>
        cases h with
        | cons hc h3 =>
          have hlt : t.length ≤ n := by
            simp only [List.length_cons] at hl
            omega
          obtain ⟨t', hsub, hlen, hnd, hst⟩ := ih c b t hlt h3
          have hac : a ∉ c :: t' := by
            intro hx
            rcases List.mem_cons.mp hx with rfl | hx
            · exact hmem (List.mem_cons_self a t)
            · exact hmem (List.mem_cons_of_mem c (hsub hx))
          refine ⟨c :: t', ?_, by simpa using Nat.succ_le_succ hlen,
            List.nodup_cons.mpr ⟨hac, hnd⟩, Steps.cons hc hst⟩
          exact List.cons_subset.mpr
            ⟨List.mem_cons_self c t, fun x hx => List.mem_cons_of_mem c (hsub hx)⟩

theorem unique_parent {table : List ProcessRecord}
    (hnodup : (ChromeWithProperCleanup.pids table).Nodup) {x u v : Nat}
    (hu : x ∈ ChromeWithProperCleanup.childPids table u)
    (hv : x ∈ ChromeWithProperCleanup.childPids table v) : u = v := by
  obtain ⟨r, hr, hru, hrx⟩ := mem_childPids_iff.mp hu
  obtain ⟨r', hr', hrv, hrx'⟩ := mem_childPids_iff.mp hv
  have : r = r' :=
    List.inj_on_of_nodup_map hnodup hr hr' (by rw [hrx, hrx'])
  subst this
  rw [← hru, ← hrv]

theorem sibling_chain_false {table : List ProcessRecord}
    (hnodup : (ChromeWithProperCleanup.pids table).Nodup)
    (hacyc : ∀ p, ¬ Descendant table p p) {a c c' : Nat} {l' : List Nat}
    (hc : c ∈ ChromeWithProperCleanup.childPids table a)
    (hc' : c' ∈ ChromeWithProperCleanup.childPids table a)
    (h : Steps table c' l' c) (hne : l' ≠ []) : False := by
  obtain ⟨l₀, u, -, hsteps, hchild⟩ := steps_last_decomp h hne
  have hu : u = a := unique_parent hnodup hchild hc
  rw [hu] at hsteps
  cases l₀ with
  | nil =>
    have hac : a = c' := steps_nil_eq hsteps
    rw [← hac] at hc'
    exact hacyc a ⟨[a], by simp, Steps.cons hc' (Steps.nil a)⟩
  | cons d t =>
    exact hacyc a ⟨c' :: d :: t, by simp, Steps.cons hc' hsteps⟩

theorem steps_to_common {table : List ProcessRecord}
    (hnodup : (ChromeWithProperCleanup.pids table).Nodup)
    (hacyc : ∀ p, ¬ Descendant table p p) :
    ∀ (n : Nat) {a c c' x : Nat} {l l' : List Nat},
      l.length + l'.length ≤ n →
      c ∈ ChromeWithProperCleanup.childPids table a →
      c' ∈ ChromeWithProperCleanup.childPids table a →
      Steps table c l x → Steps table c' l' x → c = c' := by
  intro n
  induction n with
  | zero =>
    intro a c c' x l l' hlen hc hc' h1 h2
    have hl : l = [] := List.length_eq_zero.mp (by omega)
    have hl' : l' = [] := List.length_eq_zero.mp (by omega)
    subst hl; subst hl'
    exact (steps_nil_eq h1).symm.trans (steps_nil_eq h2)
  | succ n ih =>
    intro a c c' x l l' hlen hc hc' h1 h2
    cases l with
    | nil =>
      have hx : x = c := steps_nil_eq h1
      subst hx
      cases l' with
      | nil => exact steps_nil_eq h2
      | cons d t => exact absurd (sibling_chain_false hnodup hacyc hc hc' h2 (by simp)) id
    | cons d t =>
      cases l' with
      | nil =>
        have hx : x = c' := steps_nil_eq h2
        subst hx
        exact absurd (sibling_chain_false hnodup hacyc hc' hc h1 (by simp)) id
      | cons d' t' =>
        obtain ⟨l₀, u, heq, hs, hch⟩ := steps_last_decomp h1 (by simp)
        obtain ⟨l₀', u', heq', hs', hch'⟩ := steps_last_decomp h2 (by simp)
        have huu : u' = u := unique_parent hnodup hch' hch
        subst huu
        refine ih ?_ hc hc' hs hs'
        have e1 : (d :: t).length = l₀.length + 1 := by rw [heq]; simp
        have e2 : (d' :: t').length = l₀'.length + 1 := by rw [heq']; simp
        simp only [List.length_cons] at hlen e1 e2
        omega

theorem childPids_nodup {table : List ProcessRecord}
    (hnodup : (ChromeWithProperCleanup.pids table).Nodup) (p : Nat) :
    (ChromeWithProperCleanup.childPids table p).Nodup := by
  have h2 : (List.map (fun r => r.pid) table).Nodup := hnodup
  show (List.map (fun r => r.pid)
    (List.filter (fun r => r.ppid == p) table)).Nodup
  exact List.Nodup.sublist ((List.filter_sublist table).map fun r => r.pid) h2

theorem descend_nodup {table : List ProcessRecord}
    (hnodup : (ChromeWithProperCleanup.pids table).Nodup)
    (hacyc : ∀ p, ¬ Descendant table p p) :
    ∀ (fuel : Nat) (a : Nat),
      (ChromeWithProperCleanup.descend table fuel a).Nodup := by
  intro fuel
  induction fuel with
  | zero => intro a; simp [ChromeWithProperCleanup.descend]
  | succ fuel ih =>
    intro a
    rw [ChromeWithProperCleanup.descend, List.nodup_flatMap]
    constructor
    · intro c hc
      refine List.nodup_cons.mpr ⟨fun hmem => ?_, ih c⟩
      obtain ⟨l, hne, -, hsteps⟩ := (mem_descend_iff fuel c c).mp hmem
      exact hacyc c ⟨l, hne, hsteps⟩
    · refine List.Pairwise.imp_of_mem ?_ (childPids_nodup hnodup a)
      intro c c' hcmem hcmem' hne x hx1 hx2
      have hchain1 : ∃ l, Steps table c l x := by
        rcases List.mem_cons.mp hx1 with rfl | hm
        · exact ⟨[], Steps.nil x⟩
        · obtain ⟨l, -, -, hst⟩ := (mem_descend_iff fuel c x).mp hm
          exact ⟨l, hst⟩
      have hchain2 : ∃ l, Steps table c' l x := by
        rcases List.mem_cons.mp hx2 with rfl | hm
        · exact ⟨[], Steps.nil x⟩
        · obtain ⟨l, -, -, hst⟩ := (mem_descend_iff fuel c' x).mp hm
          exact ⟨l, hst⟩
      obtain ⟨l, hst⟩ := hchain1
      obtain ⟨l', hst'⟩ := hchain2
      exact hne (steps_to_common hnodup hacyc (l.length + l'.length)
        (Nat.le_refl _) hcmem hcmem' hst hst')

theorem pids_length {table : List ProcessRecord} :
    (ChromeWithProperCleanup.pids table).length = table.length := by
  simp [ChromeWithProperCleanup.pids]

theorem getProcessTree_nodup {table : List ProcessRecord}
    (hnodup : (ChromeWithProperCleanup.pids table).Nodup)
    (hacyc : ∀ p, ¬ Descendant table p p) (root : Nat) :
    (ChromeWithProperCleanup.getProcessTree table root).Nodup := by
  unfold ChromeWithProperCleanup.getProcessTree
  split
  · refine List.nodup_cons.mpr ⟨fun hmem => ?_, descend_nodup hnodup hacyc _ root⟩
    obtain ⟨l, hne, -, hsteps⟩ := (mem_descend_iff table.length root root).mp hmem
    exact hacyc root ⟨l, hne, hsteps⟩
  · exact List.nodup_nil

theorem getProcessTree_mem_iff {table : List ProcessRecord}
    (hacyc : ∀ p, ¬ Descendant table p p) {root : Nat}
    (hroot : root ∈ ChromeWithProperCleanup.pids table) (p : Nat) :
    p ∈ ChromeWithProperCleanup.getProcessTree table root ↔
      (p = root ∨ Descendant table root p) := by
  unfold ChromeWithProperCleanup.getProcessTree
  rw [if_pos hroot, List.mem_cons]
  constructor
  · rintro (rfl | hm)
    · exact Or.inl rfl
    · obtain ⟨l, hne, -, hsteps⟩ := (mem_descend_iff table.length root p).mp hm
      exact Or.inr ⟨l, hne, hsteps⟩
  · rintro (rfl | ⟨l, hne, hst⟩)
    · exact Or.inl rfl
    · refine Or.inr ((mem_descend_iff table.length root p).mpr ?_)
      obtain ⟨l', hsub, hlen, hnd, hst'⟩ :=
        steps_bypass l.length root p l (Nat.le_refl _) hst
      cases hl' : l' with
      | nil =>
        rw [hl'] at hst'
        have hpr : p = root := steps_nil_eq hst'
        exact absurd (⟨l, hne, hst⟩ : Descendant table root p)
          (by rw [hpr]; exact hacyc root)
      | cons d t =>
        rw [hl'] at hst' hnd hsub
        have hsubset : (root :: d :: t) ⊆ ChromeWithProperCleanup.pids table := by
          intro x hx
          rcases List.mem_cons.mp hx with rfl | hx
          · exact hroot
          · exact steps_mem_pids hst' x hx
        have hle : (root :: d :: t).length ≤
            (ChromeWithProperCleanup.pids table).length :=
          (List.subperm_of_subset hnd hsubset).length_le
        rw [pids_length] at hle
        simp only [List.length_cons] at hle
        exact ⟨d :: t, by simp, by simp; omega, hst'⟩

theorem steps_congr {t1 t2 : List ProcessRecord}
    (h : ∀ p c, c ∈ ChromeWithProperCleanup.childPids t1 p ↔
        c ∈ ChromeWithProperCleanup.childPids t2 p) :
    ∀ {a b : Nat} {l : List Nat}, Steps t1 a l b → Steps t2 a l b := by
  intro a b l hst
  induction hst with
  | nil a => exact Steps.nil a
  | cons hc _ ih => exact Steps.cons ((h _ _).mp hc) ih

theorem steps_rank_lt {table : List ProcessRecord} {f : Nat → Nat}
    (hf : ∀ p c, c ∈ ChromeWithProperCleanup.childPids table p → f p < f c) :
    ∀ {a b : Nat} {l : List Nat}, Steps table a l b → l ≠ [] → f a < f b := by
  intro a b l hst
  induction hst with
  | nil a => intro hne; exact absurd rfl hne
  | cons hc hrest ih =>
    intro _hne
    rename_i a c b t
    cases t with
    | nil =>
      have hb : b = c := steps_nil_eq hrest
      rw [hb]
      exact hf a c hc
    | cons d t' => exact Nat.lt_trans (hf a c hc) (ih (by simp))

theorem acyclic_of_rank {table : List ProcessRecord} (f : Nat → Nat)
    (hf : ∀ p c, c ∈ ChromeWithProperCleanup.childPids table p → f p < f c) :
    ∀ p, ¬ Descendant table p p := by
  rintro p ⟨l, hne, hst⟩
  exact Nat.lt_irrefl (f p) (steps_rank_lt hf hst hne)

theorem depth3Table_acyclic : ∀ p, ¬ Descendant depth3Table p p := by
  apply acyclic_of_rank fun p => p
  intro p c hc
  obtain ⟨r, hr, hpp, hpid⟩ := mem_childPids_iff.mp hc
  subst hpp; subst hpid
  simp only [depth3Table, List.mem_cons, List.not_mem_nil, or_false] at hr
  rcases hr with rfl | rfl | rfl | rfl | rfl <;> decide

/-- C7: for every genuine parent/child process graph (pids listed once, no
pid its own transitive ancestor) and every root, `_get_process_tree` returns
the root first, lists the root and each of its transitive descendants exactly
once regardless of the depth of the tree and of the enumeration order of
siblings (any permutation of the table yields a permutation of the result),
omits a vanished root by returning the empty list, and never raises (it is a
total function; vanished children simply have no record to traverse). -/
theorem c7_process_tree_resolution (table : List ProcessRecord) (root : Nat)
    (hnodup : (ChromeWithProperCleanup.pids table).Nodup)
    (hacyc : ∀ p, ¬ Descendant table p p) :
    (root ∉ ChromeWithProperCleanup.pids table →
        ChromeWithProperCleanup.getProcessTree table root = [])
  ∧ (root ∈ ChromeWithProperCleanup.pids table →
        (ChromeWithProperCleanup.getProcessTree table root).head? =
          Option.some root)
  ∧ (ChromeWithProperCleanup.getProcessTree table root).Nodup
  ∧ (root ∈ ChromeWithProperCleanup.pids table →
        ∀ p, p ∈ ChromeWithProperCleanup.getProcessTree table root ↔
          (p = root ∨ Descendant table root p))
  ∧ (∀ table2, table.Perm table2 →
        (ChromeWithProperCleanup.getProcessTree table2 root).Perm
          (ChromeWithProperCleanup.getProcessTree table root)) := by
  refine ⟨fun hroot => ?_, fun hroot => ?_, getProcessTree_nodup hnodup hacyc root,
    fun hroot p => getProcessTree_mem_iff hacyc hroot p, fun table2 hp => ?_⟩
  · unfold ChromeWithProperCleanup.getProcessTree
    rw [if_neg hroot]
  · unfold ChromeWithProperCleanup.getProcessTree
    rw [if_pos hroot]
    rfl
  · have hchild : ∀ p c, c ∈ ChromeWithProperCleanup.childPids table2 p ↔
        c ∈ ChromeWithProperCleanup.childPids table p := by
      intro p c
      exact (((hp.filter fun r => r.ppid == p).map fun r => r.pid).mem_iff).symm
    have hchild' : ∀ p c, c ∈ ChromeWithProperCleanup.childPids table p ↔
        c ∈ ChromeWithProperCleanup.childPids table2 p :=
      fun p c => (hchild p c).symm
    have hpids : ∀ p, p ∈ ChromeWithProperCleanup.pids table2 ↔
        p ∈ ChromeWithProperCleanup.pids table :=
      fun p => ((hp.map fun r => r.pid).mem_iff).symm
    have hdesc : ∀ a b, Descendant table2 a b ↔ Descendant table a b := by
      intro a b
      constructor
      · rintro ⟨l, hne, hst⟩; exact ⟨l, hne, steps_congr hchild hst⟩
      · rintro ⟨l, hne, hst⟩; exact ⟨l, hne, steps_congr hchild' hst⟩
    have hacyc2 : ∀ p, ¬ Descendant table2 p p :=
      fun p hd => hacyc p ((hdesc p p).mp hd)
    have hnodup2 : (ChromeWithProperCleanup.pids table2).Nodup := by
      have hperm : (List.map (fun r => r.pid) table).Perm
          (List.map (fun r => r.pid) table2) := hp.map fun r => r.pid
      exact hperm.nodup_iff.mp hnodup
    by_cases hroot : root ∈ ChromeWithProperCleanup.pids table
    · have hroot2 : root ∈ ChromeWithProperCleanup.pids table2 :=
        (hpids root).mpr hroot
      rw [List.perm_ext_iff_of_nodup (getProcessTree_nodup hnodup2 hacyc2 root)
        (getProcessTree_nodup hnodup hacyc root)]
      intro p
      rw [getProcessTree_mem_iff hacyc2 hroot2 p,
        getProcessTree_mem_iff hacyc hroot p, hdesc]
    · have hroot2 : root ∉ ChromeWithProperCleanup.pids table2 :=
        fun h2 => hroot ((hpids root).mp h2)
      unfold ChromeWithProperCleanup.getProcessTree
      rw [if_neg hroot, if_neg hroot2]

theorem c7_witness :
    (ChromeWithProperCleanup.getProcessTree depth3Table 1).head? = Option.some 1
    ∧ (ChromeWithProperCleanup.getProcessTree depth3Table 1).Nodup
    ∧ (5 ∈ ChromeWithProperCleanup.getProcessTree depth3Table 1 ↔
        (5 = 1 ∨ Descendant depth3Table 1 5)) := by
  have h := c7_process_tree_resolution depth3Table 1 (by decide) depth3Table_acyclic
  exact ⟨h.2.1 (by decide), h.2.2.1, h.2.2.2.1 (by decide) 5⟩
